import Mathlib

/-!
# Verification of the Argos TCP port scanner (src/argos.go)

This file gives a shallow embedding of the scanning engine of the Argos
port scanner and proves the specification's claims about it.

* The Port Set Resolver (`parsePortRange`, lines 83–127 of argos.go) is
  embedded as a pure function over strings, together with faithful models
  of the Go library functions it uses (`strings.Split`,
  `strings.TrimSpace`, `strconv.Atoi`).
* The Probe (`scanPort`, lines 153–197) is embedded as a pure function of
  the port and an abstract network outcome (`DialOutcome`) describing
  what the dial, deadline-set and banner-read operations returned.
* The Scheduler/Aggregator (`main`, lines 306–353) is embedded as a
  small-step transition system `Step` over `SchedState`, modelling the
  semaphore channel `sem`, the wait group, the unbuffered `resultsChan`
  rendezvous with the collector goroutine, channel close, and the final
  `done` signal; the final report is `finalResults`.
-/

namespace Argos

/-- Model of Go `unicode.IsSpace` (the character classes Go's
`strings.TrimSpace` strips): ASCII whitespace plus the Unicode
white-space code points of Go's `unicode.White_Space` table. -/
def goIsSpace (c : Char) : Bool :=
  c.toNat == 9 || c.toNat == 10 || c.toNat == 11 || c.toNat == 12 ||
  c.toNat == 13 || c.toNat == 32 || c.toNat == 0x85 || c.toNat == 0xA0 ||
  c.toNat == 0x1680 || (0x2000 ≤ c.toNat && c.toNat ≤ 0x200A) ||
  c.toNat == 0x2028 || c.toNat == 0x2029 || c.toNat == 0x202F ||
  c.toNat == 0x205F || c.toNat == 0x3000

/-- Model of Go `strings.TrimSpace`: drop leading and trailing
white-space characters. -/
def goTrimSpace (s : String) : String :=
  String.mk (((s.data.dropWhile goIsSpace).reverse.dropWhile goIsSpace).reverse)

/-- Model of Go `strings.Split` for a one-character separator: split
around each occurrence of `sep`.  `strings.Split("", sep)` is `[""]` and
the result list is never empty, matching Go. -/
def splitChar (sep : Char) : List Char → List (List Char)
  | [] => [[]]
  | c :: rest =>
    if c = sep then [] :: splitChar sep rest
    else
      match splitChar sep rest with
      | [] => [[c]]
      | h :: t => (c :: h) :: t

/-- Go's decimal digit test for `strconv.ParseInt` base 10 (`0`–`9`). -/
def isGoDigit (c : Char) : Bool := 48 ≤ c.toNat && c.toNat ≤ 57

/-- Value of a string of decimal digits, most significant first. -/
def digitsVal (cs : List Char) : Nat :=
  cs.foldl (fun a c => a * 10 + (c.toNat - 48)) 0

/-- Largest Go `int` (64-bit) value; `strconv.Atoi` range-errors above it. -/
def int64Max : Int := 2 ^ 63 - 1

/-- Smallest Go `int` (64-bit) value; `strconv.Atoi` range-errors below it. -/
def int64Min : Int := -(2 ^ 63)

/-- Model of Go `strconv.Atoi` (= `ParseInt(s, 10, 0)` on a 64-bit int):
an optional leading sign followed by at least one decimal digit, result
within the 64-bit signed range; `none` models a non-nil error. -/
def goAtoi (s : String) : Option Int :=
  match s.data with
  | [] => none
  | c :: rest =>
    let neg : Bool := c = '-'
    let digits : List Char := if c = '-' || c = '+' then rest else c :: rest
    if digits.isEmpty then none
    else if digits.all isGoDigit then
      let v : Int := if neg then -(digitsVal digits : Int) else (digitsVal digits : Int)
      if int64Min ≤ v && v ≤ int64Max then some v else none
    else none

/-- The error taxonomy of `parsePortRange` (argos.go lines 97, 102, 107,
111, 120), each carrying exactly the data Go formats into the message:
the offending token or endpoint string, or the out-of-order endpoints.
The spec's `InvalidPortNumber` covers `invalidStartPort`,
`invalidEndPort` and `invalidPort`. -/
inductive ParseErr where
  | invalidRangeFormat (tok : String)
  | invalidStartPort (tok : String)
  | invalidEndPort (tok : String)
  | invalidRangeOrder (startPort endPort : Int)
  | invalidPort (tok : String)
deriving DecidableEq, Repr

/-- Whether a `ParseErr` is one of the spec's `InvalidPortNumber` errors
(a singleton token or a range endpoint that is not a valid integer). -/
def ParseErr.isPortNumberErr : ParseErr → Bool
  | .invalidStartPort _ => true
  | .invalidEndPort _ => true
  | .invalidPort _ => true
  | _ => false

/-- Whether a `ParseErr` is the spec's `InvalidRangeFormat`. -/
def ParseErr.isRangeFormatErr : ParseErr → Bool
  | .invalidRangeFormat _ => true
  | _ => false

/-- Whether a `ParseErr` is the spec's `InvalidRangeOrder`. -/
def ParseErr.isRangeOrderErr : ParseErr → Bool
  | .invalidRangeOrder _ _ => true
  | _ => false

/-- The loop `for port := start; port <= end; port++` of argos.go lines
114–116: all integers from `startPort` to `endPort` inclusive (empty
when `startPort > endPort`, though the caller guards that case). -/
def rangeList (startPort endPort : Int) : List Int :=
  if startPort > endPort then []
  else (List.range ((endPort - startPort).toNat + 1)).map (fun (i : Nat) => startPort + (i : Int))

/-- The body of the token loop of `parsePortRange` (argos.go lines
92–123): trim the token; a token containing a hyphen must split into
exactly two integer endpoints in nondecreasing order and expands to the
inclusive range; any other token must be a single integer. -/
def parseToken (rtok : String) : Except ParseErr (List Int) :=
  let r := goTrimSpace rtok
  if r.data.contains '-' then
    match splitChar '-' r.data with
    | [p0, p1] =>
      match goAtoi (String.mk p0) with
      | none => .error (.invalidStartPort (String.mk p0))
      | some startPort =>
        match goAtoi (String.mk p1) with
        | none => .error (.invalidEndPort (String.mk p1))
        | some endPort =>
          if startPort > endPort then .error (.invalidRangeOrder startPort endPort)
          else .ok (rangeList startPort endPort)
    | _ => .error (.invalidRangeFormat r)
  else
    match goAtoi r with
    | none => .error (.invalidPort r)
    | some port => .ok [port]

/-- The token loop of `parsePortRange`: tokens are processed in order,
successful expansions are appended, and the first failing token aborts
with its error. -/
def parseTokens : List (List Char) → Except ParseErr (List Int)
  | [] => .ok []
  | t :: ts =>
    match parseToken (String.mk t) with
    | .error e => .error e
    | .ok xs =>
      match parseTokens ts with
      | .error e => .error e
      | .ok rest => .ok (xs ++ rest)

/-- `parsePortRange` (argos.go lines 83–127): the empty spec yields the
empty list; otherwise the spec is split on commas and each token parsed
in order. -/
def parsePortRange (portRange : String) : Except ParseErr (List Int) :=
  if portRange = "" then .ok []
  else parseTokens (splitChar ',' portRange.data)

/-- The well-known port table `commonPorts` (argos.go lines 24–45). -/
def commonPorts : List (Int × String) :=
  [(21, "FTP"), (22, "SSH"), (23, "Telnet"), (25, "SMTP"), (53, "DNS"),
   (80, "HTTP"), (110, "POP3"), (111, "RPC"), (135, "MSRPC"),
   (139, "NetBIOS"), (143, "IMAP"), (443, "HTTPS"), (445, "SMB"),
   (993, "IMAPS"), (995, "POP3S"), (1723, "PPTP"), (3306, "MySQL"),
   (3389, "RDP"), (5900, "VNC"), (8080, "HTTP-Proxy")]

/-- The map lookup `commonPorts[port]` of argos.go line 171. -/
def commonPortsLookup (port : Int) : Option String :=
  (commonPorts.find? (fun e => e.1 == port)).map (fun e => e.2)

/-- `PortResult` (argos.go lines 48–52). -/
structure PortResult where
  Port : Int
  State : String
  Service : String
deriving DecidableEq, Repr

/-- Outcome of the single banner read `conn.Read(buff)` at argos.go
line 182: either it returned a nil error before the read deadline
(bytes were read) or it returned an error (timeout or failure). -/
inductive ReadOutcome where
  | bytesRead
  | readFailed
deriving DecidableEq, Repr

/-- Abstract outcome of the dial `d.Dial("tcp", address)` at argos.go
line 164 for one probe, together with the outcomes of the operations
the open branch may perform: whether `conn.SetReadDeadline` errored and
what the banner read returned.  `failedTimeout` is a non-nil error whose
`net.Error.Timeout()` is true; `failedOther` is any other failure
(refusal, unreachable, non-`net.Error`). -/
inductive DialOutcome where
  | connected (setDeadlineFailed : Bool) (rd : ReadOutcome)
  | failedTimeout
  | failedOther
deriving DecidableEq, Repr

/-- The banner-read deadline `readTimeout := 200 * time.Millisecond` of
argos.go line 176, in milliseconds.  It is a fixed constant, independent
of the caller-supplied connect timeout. -/
def readTimeout : Nat := 200

/-- `defaultTimeout = 500 * time.Millisecond` (argos.go line 18), in
milliseconds: the default connect timeout. -/
def defaultTimeout : Nat := 500

/-- `scanPort` (argos.go lines 153–197), as a function of the abstract
network outcome `net` of its dial/read operations.  The result starts as
`{port, closed, unknown}`; a timeout on dial flips the state to
`filtered`; a successful dial flips it to `open` and then assigns the
service: the table name when the port is a `commonPorts` key, otherwise
`custom-service` exactly when `SetReadDeadline` succeeded and the banner
read returned a nil error before the `readTimeout` deadline. -/
def scanPort (host : String) (port : Int) (timeoutMs : Nat) (net : DialOutcome) :
    PortResult :=
  let result : PortResult := { Port := port, State := "closed", Service := "unknown" }
  match net with
  | .connected setDeadlineFailed rd =>
    let result := { result with State := "open" }
    match commonPortsLookup port with
    | some service => { result with Service := service }
    | none =>
      if setDeadlineFailed then result
      else
        match rd with
        | .bytesRead => { result with Service := "custom-service" }
        | .readFailed => result
  | .failedTimeout => { result with State := "filtered" }
  | .failedOther => result

/-! ## Scheduler / Aggregator model (argos.go lines 306–353)

The scan loop of `main` is modelled as a small-step transition system.
A state records: the ports not yet submitted (`pending`, in PortList
order); the number of occupied slots of the semaphore channel
`sem := make(chan struct\x7b\x7d, threads)` (line 310); the ports whose
goroutine is launched but has not yet delivered its result (`running`);
the ports whose goroutine has delivered its result but not yet run its
deferred semaphore release and `wg.Done()` (`sent`); the results the
collector goroutine has received from the unbuffered `resultsChan`, in
arrival order (`received`); whether `close(resultsChan)` has executed
(`closed`); and whether the collector has sent on `done` (`doneSent`).
The wait-group counter is `running.length + sent.length`. -/

/-- State of the scan loop of `main`. -/
structure SchedState where
  pending : List Int
  sem : Nat
  running : List Int
  sent : List Int
  received : List PortResult
  closed : Bool
  doneSent : Bool
deriving DecidableEq, Repr

/-- The state just before the submission loop at argos.go line 328: all
ports pending, the semaphore empty, no goroutines, nothing received. -/
def initState (ports : List Int) : SchedState :=
  { pending := ports, sem := 0, running := [], sent := [],
    received := [], closed := false, doneSent := false }

/-- One transition of the scan loop.  `submit` is an iteration of the
`for _, port := range ports` loop (lines 328–343): `wg.Add(1)`, a
semaphore slot acquired (blocking while `sem = threads`), goroutine
launched.  `send` is the rendezvous of `resultsChan <- result` (line
337) with the collector's `range resultsChan` (line 314), delivering
`scanPort`'s result.  `finish` runs the goroutine's deferred semaphore
release and `wg.Done()` (lines 333–334).  `closeChan` is
`wg.Wait(); close(resultsChan)` (lines 346–347), enabled once every
port is submitted and the wait-group counter is zero.  `signalDone` is
the collector's `done <- true` (line 324) received by `<-done` (line
348), after which `main` sorts and reports. -/
inductive Step (host : String) (timeoutMs : Nat) (threads : Nat)
    (net : Int → DialOutcome) : SchedState → SchedState → Prop where
  | submit (s : SchedState) (p : Int) (rest : List Int) :
      s.pending = p :: rest → s.sem < threads →
      Step host timeoutMs threads net s
        { s with pending := rest, sem := s.sem + 1, running := p :: s.running }
  | send (s : SchedState) (p : Int) :
      p ∈ s.running → s.closed = false →
      Step host timeoutMs threads net s
        { s with running := s.running.erase p, sent := p :: s.sent,
                 received := s.received ++ [scanPort host p timeoutMs (net p)] }
  | finish (s : SchedState) (p : Int) :
      p ∈ s.sent →
      Step host timeoutMs threads net s
        { s with sent := s.sent.erase p, sem := s.sem - 1 }
  | closeChan (s : SchedState) :
      s.pending = [] → s.running = [] → s.sent = [] → s.closed = false →
      Step host timeoutMs threads net s { s with closed := true }
  | signalDone (s : SchedState) :
      s.closed = true → s.doneSent = false →
      Step host timeoutMs threads net s { s with doneSent := true }

/-- Reachability of a scheduler state from the start of a scan of
`ports`. -/
def Reach (host : String) (timeoutMs threads : Nat) (net : Int → DialOutcome)
    (ports : List Int) (s : SchedState) : Prop :=
  Relation.ReflTransGen (Step host timeoutMs threads net) (initState ports) s

/-- The result one probe goroutine produces for port `p`. -/
def probeOf (host : String) (timeoutMs : Nat) (net : Int → DialOutcome) (p : Int) :
    PortResult :=
  scanPort host p timeoutMs (net p)

/-- The collector's `results` slice (argos.go lines 313–323): of the
received results, exactly those with state `open`, in arrival order. -/
def openResults (rs : List PortResult) : List PortResult :=
  rs.filter (fun r => r.State == "open")

/-- The sort of argos.go lines 351–353: `sort.Slice` by ascending
`Port` (modelled by insertion sort, which like `sort.Slice` produces a
permutation ordered by the comparison). -/
def sortByPort (rs : List PortResult) : List PortResult :=
  List.insertionSort (fun a b => a.Port ≤ b.Port) rs

/-- The finalized ResultSet that `main` displays: the collector's open
results, sorted by port ascending. -/
def finalResults (s : SchedState) : List PortResult :=
  sortByPort (openResults s.received)

/-- The invariant of the scan loop: (`acct`) the probe results of all
ports are accounted for — each port is still pending, or its goroutine
is running, or its result has been received; (`semEq`) the occupied
semaphore slots are exactly the live goroutines (one slot acquired
before each launch, released at each exit); (`semLe`) the semaphore
never exceeds its capacity `threads`; (`closedInv`) the channel is
closed only after every port is submitted and every goroutine is gone;
(`doneInv`) `done` is signalled only after the channel is closed. -/
structure SchedInv (host : String) (timeoutMs threads : Nat)
    (net : Int → DialOutcome) (ports : List Int) (s : SchedState) : Prop where
  acct : (ports.map (probeOf host timeoutMs net)).Perm
    (((s.pending ++ s.running).map (probeOf host timeoutMs net)) ++ s.received)
  semEq : s.sem = s.running.length + s.sent.length
  semLe : s.sem ≤ threads
  closedInv : s.closed = true → s.pending = [] ∧ s.running = [] ∧ s.sent = []
  doneInv : s.doneSent = true → s.closed = true

/-- Termination measure for the scan loop: every step strictly
decreases it, so every run of the Scheduler terminates. -/
def stepMeasure (s : SchedState) : Nat :=
  3 * s.pending.length + 2 * s.running.length + s.sent.length +
    (if s.closed then 0 else 1) + (if s.doneSent then 0 else 1)

instance : DecidableEq (Except ParseErr (List Int)) := fun a b =>
  match a, b with
  | .ok x, .ok y => decidable_of_iff (x = y) (by simp)
  | .error x, .error y => decidable_of_iff (x = y) (by simp)
  | .ok _, .error _ => .isFalse (by simp)
  | .error _, .ok _ => .isFalse (by simp)

/-- A network environment where every port accepts the connection, the
read deadline is set without error, and the banner read errors out
(no banner observed). -/
def openNet : Int → DialOutcome := fun _ => .connected false .readFailed

/-- The scheduler state after a complete scan of the single port 80
under `openNet` with one thread. -/
def demo80Final : SchedState :=
  { pending := [], sem := 0, running := [], sent := [],
    received := [{ Port := 80, State := "open", Service := "HTTP" }],
    closed := true, doneSent := true }

/-- The scheduler state of the `[80]` scan right after submission of
port 80: its goroutine holds the single semaphore slot. -/
def demo80Mid : SchedState :=
  { pending := [], sem := 1, running := [80], sent := [],
    received := [], closed := false, doneSent := false }

instance : IsTotal PortResult (fun a b => a.Port ≤ b.Port) :=
  ⟨fun a b => Int.le_total a.Port b.Port⟩

instance : IsTrans PortResult (fun a b => a.Port ≤ b.Port) :=
  ⟨fun _ _ _ hab hbc => le_trans hab hbc⟩

/-- The scheduler state after a complete scan of the duplicate port
list `[80, 80]` (the PortList of the spec string `"80,80"`) under
`openNet` with two threads: the finalized ResultSet holds two entries
for port 80. -/
def dup80Final : SchedState :=
  { pending := [], sem := 0, running := [], sent := [],
    received := [{ Port := 80, State := "open", Service := "HTTP" },
                 { Port := 80, State := "open", Service := "HTTP" }],
    closed := true, doneSent := true }

/-- The network environment of the end-to-end scenario: only port 8000
accepts connections (an HTTP service, which sends no unsolicited
banner, so the secondary read times out); every other port actively
refuses. -/
def scenarioNet : Int → DialOutcome := fun p =>
  if p == 8000 then .connected false .readFailed else .failedOther

/-- The scheduler state after a complete scan of `"7999-8001"` under
`scenarioNet` with the default 100 threads. -/
def scenarioFinal : SchedState :=
  { pending := [], sem := 0, running := [], sent := [],
    received := [{ Port := 7999, State := "closed", Service := "unknown" },
                 { Port := 8000, State := "open", Service := "unknown" },
                 { Port := 8001, State := "closed", Service := "unknown" }],
    closed := true, doneSent := true }

/-- A token that is a nonempty string of decimal digits. -/
def isDigitsTok (t : List Char) : Bool := !t.isEmpty && t.all isGoDigit

/-- A syntactically valid token of a port spec: either a nonempty digit
string (within the 64-bit range), or `a-b` with `a`, `b` nonempty digit
strings whose values are in nondecreasing order (within range). -/
def ValidTok (t : List Char) : Prop :=
  (isDigitsTok t = true ∧ (digitsVal t : Int) ≤ int64Max) ∨
  (∃ a b, t = a ++ '-' :: b ∧ isDigitsTok a = true ∧ isDigitsTok b = true ∧
    (digitsVal a : Int) ≤ (digitsVal b : Int) ∧ (digitsVal b : Int) ≤ int64Max)

/-- The PortList contribution of one valid token: its single value, or
every integer of its inclusive range. -/
def expandTok (t : List Char) : List Int :=
  if t.contains '-' then
    match splitChar '-' t with
    | [a, b] => rangeList ((digitsVal a : Int)) ((digitsVal b : Int))
    | _ => []
  else [((digitsVal t : Int))]

theorem schedInv_init (host : String) (timeoutMs threads : Nat)
    (net : Int → DialOutcome) (ports : List Int) :
    SchedInv host timeoutMs threads net ports (initState ports) := by
  refine ⟨?_, rfl, Nat.zero_le _, ?_, ?_⟩ <;> simp [initState]

theorem perm_move_back {a : PortResult} {l1 l2 l3 : List PortResult} :
    ((l1 ++ a :: l2) ++ l3).Perm ((l1 ++ l2) ++ (l3 ++ [a])) := by
  have h1 : ((l1 ++ a :: l2) ++ l3).Perm (a :: ((l1 ++ l2) ++ l3)) :=
    List.Perm.append_right l3 List.perm_middle
  have h2 : (((l1 ++ l2) ++ l3) ++ [a]).Perm (a :: ((l1 ++ l2) ++ l3)) :=
    List.perm_append_singleton a ((l1 ++ l2) ++ l3)
  have h3 : ((l1 ++ l2) ++ (l3 ++ [a])) = (((l1 ++ l2) ++ l3) ++ [a]) := by
    simp [List.append_assoc]
  rw [h3]
  exact h1.trans h2.symm

theorem schedInv_step (host : String) (timeoutMs threads : Nat)
    (net : Int → DialOutcome) (ports : List Int) (s s2 : SchedState)
    (hinv : SchedInv host timeoutMs threads net ports s)
    (hstep : Step host timeoutMs threads net s s2) :
    SchedInv host timeoutMs threads net ports s2 := by
  obtain ⟨acct, semEq, semLe, closedInv, doneInv⟩ := hinv
  cases hstep with
  | submit p rest hp hsem =>
    refine ⟨?_, ?_, ?_, ?_, ?_⟩ <;> dsimp only
    · refine acct.trans ?_
      rw [hp]
      exact List.Perm.append_right _ (List.Perm.map _ List.perm_middle.symm)
    · simp [semEq]; omega
    · omega
    · intro hc
      exact absurd ((closedInv hc).1.symm.trans hp) (List.cons_ne_nil p rest).symm
    · exact doneInv
  | send p hp hclosed =>
    have hlen : 0 < s.running.length := List.length_pos_of_mem hp
    refine ⟨?_, ?_, ?_, ?_, ?_⟩ <;> dsimp only
    · refine acct.trans ?_
      have hrun : s.running.Perm (p :: s.running.erase p) := List.perm_cons_erase hp
      have step1 : ((s.pending ++ s.running).map (probeOf host timeoutMs net)
            ++ s.received).Perm
          ((s.pending ++ p :: s.running.erase p).map (probeOf host timeoutMs net)
            ++ s.received) :=
        List.Perm.append_right _ (List.Perm.map _ (List.Perm.append_left _ hrun))
      refine step1.trans ?_
      have hmid : (s.pending ++ p :: s.running.erase p).map (probeOf host timeoutMs net)
          = s.pending.map (probeOf host timeoutMs net) ++
            probeOf host timeoutMs net p ::
              (s.running.erase p).map (probeOf host timeoutMs net) := by
        simp
      rw [hmid]
      have hgoal : (s.pending ++ s.running.erase p).map (probeOf host timeoutMs net)
          = s.pending.map (probeOf host timeoutMs net) ++
            (s.running.erase p).map (probeOf host timeoutMs net) := by
        simp
      rw [hgoal]
      exact perm_move_back
    · rw [List.length_erase_of_mem hp]
      simp [semEq]
      omega
    · exact semLe
    · intro hc
      rw [(closedInv hc).2.1] at hp
      cases hp
    · exact doneInv
  | finish p hp =>
    have hlen : 0 < s.sent.length := List.length_pos_of_mem hp
    refine ⟨acct, ?_, ?_, ?_, doneInv⟩ <;> dsimp only
    · rw [List.length_erase_of_mem hp]
      omega
    · omega
    · intro hc
      rw [(closedInv hc).2.2] at hp
      cases hp
  | closeChan h1 h2 h3 h4 =>
    exact ⟨acct, semEq, semLe, fun _ => ⟨h1, h2, h3⟩, fun _ => rfl⟩
  | signalDone hc hd =>
    exact ⟨acct, semEq, semLe, fun _ => closedInv hc, fun _ => hc⟩

theorem schedInv_reach (host : String) (timeoutMs threads : Nat)
    (net : Int → DialOutcome) (ports : List Int) (s : SchedState)
    (hreach : Reach host timeoutMs threads net ports s) :
    SchedInv host timeoutMs threads net ports s := by
  induction hreach with
  | refl => exact schedInv_init host timeoutMs threads net ports
  | tail hr hstep ih => exact schedInv_step host timeoutMs threads net ports _ _ ih hstep

theorem stepMeasure_decreases (host : String) (timeoutMs threads : Nat)
    (net : Int → DialOutcome) (s s2 : SchedState)
    (hstep : Step host timeoutMs threads net s s2) :
    stepMeasure s2 < stepMeasure s := by
  cases hstep with
  | submit p rest hp hsem =>
    cases hc : s.closed <;> cases hd : s.doneSent <;>
      simp [stepMeasure, hp, hc, hd] <;> omega
  | send p hp hclosed =>
    have hlen : 0 < s.running.length := List.length_pos_of_mem hp
    cases hd : s.doneSent <;>
      simp [stepMeasure, hclosed, hd, List.length_erase_of_mem hp] <;> omega
  | finish p hp =>
    have hlen : 0 < s.sent.length := List.length_pos_of_mem hp
    cases hc : s.closed <;> cases hd : s.doneSent <;>
      simp [stepMeasure, hc, hd, List.length_erase_of_mem hp] <;> omega
  | closeChan h1 h2 h3 h4 =>
    cases hd : s.doneSent <;> simp [stepMeasure, h1, h2, h3, h4, hd]
  | signalDone hc hd =>
    simp [stepMeasure, hc, hd]

theorem sched_progress (host : String) (timeoutMs threads : Nat)
    (net : Int → DialOutcome) (ports : List Int) (s : SchedState)
    (hth : 1 ≤ threads) (hreach : Reach host timeoutMs threads net ports s)
    (hnotdone : s.doneSent = false) :
    ∃ s2, Step host timeoutMs threads net s s2 := by
  obtain ⟨acct, semEq, semLe, closedInv, doneInv⟩ :=
    schedInv_reach host timeoutMs threads net ports s hreach
  cases hsent : s.sent with
  | cons p rest =>
    exact ⟨_, .finish s p (by rw [hsent]; exact List.mem_cons_self p rest)⟩
  | nil =>
    cases hrun : s.running with
    | cons p rest =>
      have hcl : s.closed = false := by
        cases hc2 : s.closed with
        | false => rfl
        | true =>
          exact absurd ((closedInv hc2).2.1.symm.trans hrun)
            (List.cons_ne_nil p rest).symm
      exact ⟨_, .send s p (by rw [hrun]; exact List.mem_cons_self p rest) hcl⟩
    | nil =>
      cases hpend : s.pending with
      | cons p rest =>
        have hsem : s.sem < threads := by
          rw [semEq, hrun, hsent]; simpa using hth
        exact ⟨_, .submit s p rest hpend hsem⟩
      | nil =>
        cases hcl : s.closed with
        | false => exact ⟨_, .closeChan s hpend hrun hsent hcl⟩
        | true => exact ⟨_, .signalDone s hcl hnotdone⟩

/-- The probe always stamps its own port into the result
(`result.Port = port` on every path of `scanPort`). -/
theorem scanPort_Port (host : String) (port : Int) (timeoutMs : Nat)
    (net : DialOutcome) : (scanPort host port timeoutMs net).Port = port := by
  unfold scanPort
  cases net with
  | connected sd rd =>
    cases commonPortsLookup port <;> cases sd <;> cases rd <;> simp
  | failedTimeout => simp
  | failedOther => simp

example : parsePortRange "22,80,100-200" =
    .ok ([22, 80] ++ rangeList 100 200) := by decide

example : parsePortRange "" = .ok [] := by decide

example : parsePortRange "-5" = .error (.invalidStartPort "") := by decide

example : parsePortRange "200-100" = .error (.invalidRangeOrder 200 100) := by decide

example : parsePortRange "22, 80" = .ok [22, 80] := by decide

example : parsePortRange "abc" = .error (.invalidPort "abc") := by decide

example : parsePortRange "22-abc" = .error (.invalidEndPort "abc") := by decide

example : parsePortRange "1-2-3" = .error (.invalidRangeFormat "1-2-3") := by decide

example : scanPort "h" 80 500 (.connected false .readFailed) =
    { Port := 80, State := "open", Service := "HTTP" } := by decide

example : scanPort "h" 8000 500 (.connected false .readFailed) =
    { Port := 8000, State := "open", Service := "unknown" } := by decide

example : scanPort "h" 8000 500 (.connected false .bytesRead) =
    { Port := 8000, State := "open", Service := "custom-service" } := by decide

example : scanPort "h" 8000 500 .failedTimeout =
    { Port := 8000, State := "filtered", Service := "unknown" } := by decide

example : scanPort "h" 8000 500 .failedOther =
    { Port := 8000, State := "closed", Service := "unknown" } := by decide

/-! ## Claim theorems -/

/-- C1: for every concurrency ceiling `threads ≥ 1` and every port list,
the scan completes with exactly one `PortResult` per submitted port
handed to the collector over `resultsChan` — no duplicates, no
omissions (the collected ports are a permutation of the PortList, and
each collected result is the probe result for its port) — and the scan
is declared complete (`done` signalled, line 348 passed) only after
every port has been submitted, every launched probe has completed, and
every produced result has been accepted by the collector; moreover from
any reachable incomplete state some step is enabled (no deadlock) and
every step decreases `stepMeasure` (so the scan does complete). -/
theorem C1_scheduler_join_completeness
    (host : String) (timeoutMs threads : Nat) (net : Int → DialOutcome)
    (ports : List Int) (s : SchedState)
    (hth : 1 ≤ threads) (hreach : Reach host timeoutMs threads net ports s) :
    (s.doneSent = true →
      s.received.length = ports.length ∧
      (s.received.map PortResult.Port).Perm ports ∧
      (∀ r ∈ s.received, r = scanPort host r.Port timeoutMs (net r.Port)) ∧
      s.pending = [] ∧ s.running = [] ∧ s.sent = []) ∧
    (s.doneSent = false → ∃ s2, Step host timeoutMs threads net s s2) ∧
    (∀ s2, Step host timeoutMs threads net s s2 →
      stepMeasure s2 < stepMeasure s) := by
  refine ⟨?_, ?_, ?_⟩
  · intro hdone
    obtain ⟨acct, semEq, semLe, closedInv, doneInv⟩ :=
      schedInv_reach host timeoutMs threads net ports s hreach
    obtain ⟨h1, h2, h3⟩ := closedInv (doneInv hdone)
    rw [h1, h2] at acct
    simp only [List.nil_append, List.map_nil] at acct
    have hrecv : s.received.Perm (ports.map (probeOf host timeoutMs net)) :=
      acct.symm
    have hports : ((ports.map (probeOf host timeoutMs net)).map
        PortResult.Port) = ports := by
      rw [List.map_map]
      have : (PortResult.Port ∘ probeOf host timeoutMs net) = id := by
        funext p
        exact scanPort_Port host p timeoutMs (net p)
      rw [this, List.map_id]
    refine ⟨?_, ?_, ?_, h1, h2, h3⟩
    · rw [hrecv.length_eq, List.length_map]
    · have := hrecv.map PortResult.Port
      rwa [hports] at this
    · intro r hr
      have hr2 : r ∈ ports.map (probeOf host timeoutMs net) := hrecv.subset hr
      obtain ⟨p, hp, hpr⟩ := List.mem_map.mp hr2
      have : r.Port = p := by rw [← hpr]; exact scanPort_Port host p timeoutMs (net p)
      rw [this, ← hpr]
      rfl
  · exact sched_progress host timeoutMs threads net ports s hth hreach
  · exact fun s2 => stepMeasure_decreases host timeoutMs threads net s s2

theorem demo80_reach : Reach "h" 500 1 openNet [80] demo80Final := by
  apply Relation.ReflTransGen.head (Step.submit (initState [80]) 80 [] rfl (by decide))
  apply Relation.ReflTransGen.head (Step.send _ 80 (by decide) rfl)
  apply Relation.ReflTransGen.head (Step.finish _ 80 (by decide))
  apply Relation.ReflTransGen.head (Step.closeChan _ rfl rfl rfl rfl)
  apply Relation.ReflTransGen.head (Step.signalDone _ rfl rfl)
  exact Relation.ReflTransGen.refl

/-- Witness for C1 at the concrete scan of `[80]` with one thread. -/
theorem C1_scheduler_join_completeness_witness :
    demo80Final.received.length = ([80] : List Int).length ∧
    (demo80Final.received.map PortResult.Port).Perm [80] ∧
    (∀ r ∈ demo80Final.received, r = scanPort "h" r.Port 500 (openNet r.Port)) ∧
    demo80Final.pending = [] ∧ demo80Final.running = [] ∧ demo80Final.sent = [] :=
  (C1_scheduler_join_completeness "h" 500 1 openNet [80] demo80Final
    (by decide) demo80_reach).1 rfl

theorem demo80Mid_reach : Reach "h" 500 1 openNet [80] demo80Mid := by
  apply Relation.ReflTransGen.head (Step.submit (initState [80]) 80 [] rfl (by decide))
  exact Relation.ReflTransGen.refl

/-- C2: in every reachable state of a scan with concurrency ceiling
`threads`, at most `threads` probes are in flight (launched and not yet
ended), the occupied semaphore slots are exactly the in-flight probes —
one slot is acquired on the submission path before each launch
(`Step.submit`) and released unconditionally when the probe's goroutine
ends (`Step.finish`, the deferred release, which runs on every exit
path) — and the semaphore never exceeds its capacity. -/
theorem C2_ticket_bound (host : String) (timeoutMs threads : Nat)
    (net : Int → DialOutcome) (ports : List Int) (s : SchedState)
    (hreach : Reach host timeoutMs threads net ports s) :
    s.running.length + s.sent.length ≤ threads ∧
    s.sem = s.running.length + s.sent.length ∧
    s.sem ≤ threads := by
  obtain ⟨acct, semEq, semLe, closedInv, doneInv⟩ :=
    schedInv_reach host timeoutMs threads net ports s hreach
  exact ⟨by omega, semEq, semLe⟩

/-- Witness for C2 at a state of the `[80]` scan with a probe in
flight. -/
theorem C2_ticket_bound_witness :
    demo80Mid.running.length + demo80Mid.sent.length ≤ 1 ∧
    demo80Mid.sem = demo80Mid.running.length + demo80Mid.sent.length ∧
    demo80Mid.sem ≤ 1 :=
  C2_ticket_bound "h" 500 1 openNet [80] demo80Mid demo80Mid_reach

theorem dup80_reach : Reach "h" 500 2 openNet [80, 80] dup80Final := by
  apply Relation.ReflTransGen.head (Step.submit (initState [80, 80]) 80 [80] rfl (by decide))
  apply Relation.ReflTransGen.head (Step.submit _ 80 [] rfl (by decide))
  apply Relation.ReflTransGen.head (Step.send _ 80 (by decide) rfl)
  apply Relation.ReflTransGen.head (Step.send _ 80 (by decide) rfl)
  apply Relation.ReflTransGen.head (Step.finish _ 80 (by decide))
  apply Relation.ReflTransGen.head (Step.finish _ 80 (by decide))
  apply Relation.ReflTransGen.head (Step.closeChan _ rfl rfl rfl rfl)
  apply Relation.ReflTransGen.head (Step.signalDone _ rfl rfl)
  exact Relation.ReflTransGen.refl

/-- C3 counterexample: the PortList `[80, 80]` (a valid parse of the
spec `"80,80"`; the data model permits duplicates) reaches a completed
scan whose finalized ResultSet contains two entries with the same port
and is not sorted strictly ascending, refuting the claim for
duplicate-carrying PortLists. -/
theorem C3_counterexample :
    parsePortRange "80,80" = .ok [80, 80] ∧
    Reach "h" 500 2 openNet [80, 80] dup80Final ∧
    dup80Final.doneSent = true ∧
    finalResults dup80Final =
      [{ Port := 80, State := "open", Service := "HTTP" },
       { Port := 80, State := "open", Service := "HTTP" }] ∧
    ¬ (finalResults dup80Final).Pairwise (fun a b => a.Port < b.Port) ∧
    ¬ ((finalResults dup80Final).map PortResult.Port).Nodup :=
  ⟨by decide, dup80_reach, rfl, by decide, by decide, by decide⟩

/-- C3 (amended): for every duplicate-free PortList and every input
submission (arrival) order, the finalized ResultSet is sorted strictly
ascending by port and never contains two entries with the same port
(for PortLists with duplicated ports this fails, see the
counterexample; the sort is always nondecreasing by port). -/
theorem C3_resultset_sorted (host : String) (timeoutMs threads : Nat)
    (net : Int → DialOutcome) (ports : List Int) (s : SchedState)
    (hnodup : ports.Nodup)
    (hreach : Reach host timeoutMs threads net ports s)
    (hdone : s.doneSent = true) :
    (finalResults s).Sorted (fun a b => a.Port ≤ b.Port) ∧
    (finalResults s).Pairwise (fun a b => a.Port < b.Port) ∧
    ((finalResults s).map PortResult.Port).Nodup := by
  obtain ⟨acct, semEq, semLe, closedInv, doneInv⟩ :=
    schedInv_reach host timeoutMs threads net ports s hreach
  obtain ⟨h1, h2, h3⟩ := closedInv (doneInv hdone)
  rw [h1, h2] at acct
  simp only [List.nil_append, List.map_nil] at acct
  have hports : ((ports.map (probeOf host timeoutMs net)).map
      PortResult.Port) = ports := by
    rw [List.map_map]
    have : (PortResult.Port ∘ probeOf host timeoutMs net) = id := by
      funext p
      exact scanPort_Port host p timeoutMs (net p)
    rw [this, List.map_id]
  have hrecvnodup : (s.received.map PortResult.Port).Nodup := by
    have := (acct.symm.map PortResult.Port).nodup_iff
    rw [hports] at this
    exact this.mpr hnodup
  have hopensub : (openResults s.received).Sublist s.received :=
    List.filter_sublist s.received
  have hopennodup : ((openResults s.received).map PortResult.Port).Nodup :=
    (hopensub.map PortResult.Port).nodup hrecvnodup
  have hsortperm : (finalResults s).Perm (openResults s.received) := by
    unfold finalResults sortByPort
    exact List.perm_insertionSort _ _
  have hfinalnodup : ((finalResults s).map PortResult.Port).Nodup :=
    ((hsortperm.map PortResult.Port).nodup_iff).mpr hopennodup
  have hsorted : (finalResults s).Sorted (fun a b => a.Port ≤ b.Port) := by
    unfold finalResults sortByPort
    exact List.sorted_insertionSort _ _
  refine ⟨hsorted, ?_, hfinalnodup⟩
  have hne : (finalResults s).Pairwise (fun a b => a.Port ≠ b.Port) :=
    (List.pairwise_map).mp hfinalnodup
  exact hsorted.imp₂ (fun _ _ hle hnee => lt_of_le_of_ne hle hnee) hne

/-- Witness for C3 (amended) at the concrete scan of `[80]`. -/
theorem C3_resultset_sorted_witness :
    (finalResults demo80Final).Sorted (fun a b => a.Port ≤ b.Port) ∧
    (finalResults demo80Final).Pairwise (fun a b => a.Port < b.Port) ∧
    ((finalResults demo80Final).map PortResult.Port).Nodup :=
  C3_resultset_sorted "h" 500 1 openNet [80] demo80Final (by decide)
    demo80_reach rfl

theorem scenario_reach :
    Reach "scanme" 500 100 scenarioNet [7999, 8000, 8001] scenarioFinal := by
  apply Relation.ReflTransGen.head
    (Step.submit (initState [7999, 8000, 8001]) 7999 [8000, 8001] rfl (by decide))
  apply Relation.ReflTransGen.head (Step.submit _ 8000 [8001] rfl (by decide))
  apply Relation.ReflTransGen.head (Step.submit _ 8001 [] rfl (by decide))
  apply Relation.ReflTransGen.head (Step.send _ 7999 (by decide) rfl)
  apply Relation.ReflTransGen.head (Step.send _ 8000 (by decide) rfl)
  apply Relation.ReflTransGen.head (Step.send _ 8001 (by decide) rfl)
  apply Relation.ReflTransGen.head (Step.finish _ 7999 (by decide))
  apply Relation.ReflTransGen.head (Step.finish _ 8000 (by decide))
  apply Relation.ReflTransGen.head (Step.finish _ 8001 (by decide))
  apply Relation.ReflTransGen.head (Step.closeChan _ rfl rfl rfl rfl)
  apply Relation.ReflTransGen.head (Step.signalDone _ rfl rfl)
  exact Relation.ReflTransGen.refl

/-- C5 counterexample: scanning `"7999-8001"` with only port 8000
accepting yields the finalized ResultSet
`[{8000, open, unknown}]`, not `[{8000, open, HTTP}]`: the
well-known table `commonPorts` has no entry for port 8000, so the open
port is reported with service `unknown` (no banner) rather than
`HTTP`. -/
theorem C5_counterexample :
    parsePortRange "7999-8001" = .ok [7999, 8000, 8001] ∧
    Reach "scanme" 500 100 scenarioNet [7999, 8000, 8001] scenarioFinal ∧
    scenarioFinal.doneSent = true ∧
    finalResults scenarioFinal =
      [{ Port := 8000, State := "open", Service := "unknown" }] ∧
    finalResults scenarioFinal ≠
      [{ Port := 8000, State := "open", Service := "HTTP" }] ∧
    commonPortsLookup 8000 = none :=
  ⟨by decide, scenario_reach, rfl, by decide, by decide, by decide⟩

/-- C5 (amended): scanning ports `"7999-8001"` against a host where
only port 8000 accepts connections (an HTTP service, no unsolicited
banner) and the other two ports refuse yields, in every completed run,
the final ResultSet `[{8000, open, unknown}]` with scanned-port
count 3 (the open port is reported with service `unknown`, since 8000
is not in the well-known table and no banner is read; the claimed
service name `HTTP` is not produced). -/
theorem C5_scenario (host : String) (timeoutMs threads : Nat) (s : SchedState)
    (hreach : Reach host timeoutMs threads scenarioNet [7999, 8000, 8001] s)
    (hdone : s.doneSent = true) :
    parsePortRange "7999-8001" = .ok [7999, 8000, 8001] ∧
    ([7999, 8000, 8001] : List Int).length = 3 ∧
    finalResults s = [{ Port := 8000, State := "open", Service := "unknown" }] := by
  refine ⟨by decide, by decide, ?_⟩
  obtain ⟨acct, semEq, semLe, closedInv, doneInv⟩ :=
    schedInv_reach host timeoutMs threads scenarioNet [7999, 8000, 8001] s hreach
  obtain ⟨h1, h2, h3⟩ := closedInv (doneInv hdone)
  rw [h1, h2] at acct
  simp only [List.nil_append, List.map_nil] at acct
  have hf := (acct.symm).filter (fun r => r.State == "open")
  have hexp : ([7999, 8000, 8001].map
      (probeOf host timeoutMs scenarioNet)).filter (fun r => r.State == "open") =
      [{ Port := 8000, State := "open", Service := "unknown" }] := rfl
  rw [hexp] at hf
  have hopen : openResults s.received =
      [{ Port := 8000, State := "open", Service := "unknown" }] :=
    List.perm_singleton.mp hf
  unfold finalResults
  rw [hopen]
  rfl

/-- Witness for C5 (amended) at the concrete completed run of the
scenario. -/
theorem C5_scenario_witness :
    parsePortRange "7999-8001" = .ok [7999, 8000, 8001] ∧
    ([7999, 8000, 8001] : List Int).length = 3 ∧
    finalResults scenarioFinal =
      [{ Port := 8000, State := "open", Service := "unknown" }] :=
  C5_scenario "scanme" 500 100 scenarioFinal scenario_reach rfl

/-- On every successful dial the probe's state is `open`, whatever the
table lookup, deadline set and banner read did. -/
theorem scanPort_State_connected (host : String) (port : Int) (timeoutMs : Nat)
    (sd : Bool) (rd : ReadOutcome) :
    (scanPort host port timeoutMs (.connected sd rd)).State = "open" := by
  unfold scanPort
  cases commonPortsLookup port <;> cases sd <;> cases rd <;> rfl

/-- C4: for every host, port and timeout, the probe classifies a dial
failure that is specifically a timeout (`netErr.Timeout()` true, line
191) as `filtered`, any other dial failure as `closed`, and a
successful dial as `open`; and it always returns a `PortResult` for its
port with one of the three classifications — it never propagates an
error to the caller (`scanPort` is a total function into
`PortResult`). -/
theorem C4_probe_classification (host : String) (port : Int) (timeoutMs : Nat) :
    (scanPort host port timeoutMs .failedTimeout).State = "filtered" ∧
    (scanPort host port timeoutMs .failedOther).State = "closed" ∧
    (∀ sd rd, (scanPort host port timeoutMs (.connected sd rd)).State = "open") ∧
    (∀ net, (scanPort host port timeoutMs net).Port = port ∧
      ((scanPort host port timeoutMs net).State = "open" ∨
       (scanPort host port timeoutMs net).State = "closed" ∨
       (scanPort host port timeoutMs net).State = "filtered")) := by
  refine ⟨rfl, rfl, scanPort_State_connected host port timeoutMs, ?_⟩
  intro net
  refine ⟨scanPort_Port host port timeoutMs net, ?_⟩
  cases net with
  | connected sd rd => exact Or.inl (scanPort_State_connected host port timeoutMs sd rd)
  | failedTimeout => exact Or.inr (Or.inr rfl)
  | failedOther => exact Or.inr (Or.inl rfl)

/-- C6 counterexample: the secondary read deadline is the fixed
constant `readTimeout = 200` ms (argos.go line 176); it is not shorter
than the connect timeout when the caller supplies, e.g.,
`-timeout 100` (a 100 ms connect timeout), refuting "a secondary read
deadline that is shorter than the connect timeout" as a statement about
every timeout. -/
theorem C6_counterexample :
    readTimeout = 200 ∧
    ¬ (∀ timeoutMs : Nat, 1 ≤ timeoutMs → readTimeout < timeoutMs) :=
  ⟨rfl, fun h => absurd (h 100 (by decide)) (by decide)⟩

/-- C6 (amended): for every open port not in the well-known table, the
probe sets the fixed 200 ms secondary read deadline `readTimeout`
(shorter than the 500 ms default connect timeout, though not
necessarily shorter than a caller-supplied one) and attempts a single
read; the service is labeled `custom-service` exactly when the read
returns bytes before the deadline, and stays `unknown` when the read
errors/times out (or the deadline could not be set).  For a port in the
table, the table's name is assigned directly and the result is
independent of every read outcome (no secondary read). -/
theorem C6_banner_heuristic (host : String) (port : Int) (timeoutMs : Nat) :
    readTimeout < defaultTimeout ∧
    (∀ sname, commonPortsLookup port = some sname →
      ∀ sd rd, (scanPort host port timeoutMs (.connected sd rd)).Service = sname) ∧
    (commonPortsLookup port = none →
      (scanPort host port timeoutMs (.connected false .bytesRead)).Service =
        "custom-service" ∧
      (scanPort host port timeoutMs (.connected false .readFailed)).Service =
        "unknown" ∧
      ∀ rd, (scanPort host port timeoutMs (.connected true rd)).Service =
        "unknown") := by
  refine ⟨by decide, ?_, ?_⟩
  · intro sname hl sd rd
    unfold scanPort
    rw [hl]
  · intro hl
    refine ⟨?_, ?_, ?_⟩ <;> (try intro rd) <;> (unfold scanPort; rw [hl]) <;> (try cases rd) <;> rfl

/-- Witness for C6 (amended) at ports 8000 (not in the table) and 80
(in the table, mapped to HTTP). -/
theorem C6_banner_heuristic_witness :
    readTimeout < defaultTimeout ∧
    (scanPort "h" 8000 500 (.connected false .bytesRead)).Service =
      "custom-service" ∧
    (scanPort "h" 8000 500 (.connected false .readFailed)).Service = "unknown" ∧
    (scanPort "h" 80 500 (.connected false .readFailed)).Service = "HTTP" := by
  obtain ⟨hlt, hsome, hnone⟩ := C6_banner_heuristic "h" 8000 500
  obtain ⟨h1, h2, h3⟩ := hnone rfl
  exact ⟨hlt, h1, h2, (C6_banner_heuristic "h" 80 500).2.1 "HTTP" rfl false .readFailed⟩

/-! ## Port Set Resolver lemmas -/

theorem goIsSpace_digit {c : Char} (h : isGoDigit c = true) : goIsSpace c = false := by
  simp only [isGoDigit, Bool.and_eq_true, decide_eq_true_eq] at h
  simp only [goIsSpace, Bool.or_eq_false_iff, Bool.and_eq_false_iff,
    beq_eq_false_iff_ne, ne_eq, decide_eq_false_iff_not, not_le]
  omega

theorem isGoDigit_ne_hyphen {c : Char} (h : isGoDigit c = true) : ¬ c = '-' :=
  fun e => absurd (e ▸ h) (by decide)

theorem isGoDigit_ne_plus {c : Char} (h : isGoDigit c = true) : ¬ c = '+' :=
  fun e => absurd (e ▸ h) (by decide)

theorem dropWhile_goIsSpace_eq_self {l : List Char}
    (h : ∀ c ∈ l, goIsSpace c = false) : l.dropWhile goIsSpace = l := by
  cases l with
  | nil => rfl
  | cons c cs =>
    rw [List.dropWhile_cons, h c (List.mem_cons_self c cs)]
    simp

theorem goTrimSpace_eq_self {s : String} (h : ∀ c ∈ s.data, goIsSpace c = false) :
    goTrimSpace s = s := by
  unfold goTrimSpace
  rw [dropWhile_goIsSpace_eq_self h,
    dropWhile_goIsSpace_eq_self (fun c hc => h c (List.mem_reverse.mp hc)),
    List.reverse_reverse]

theorem splitChar_eq_single {sep : Char} : ∀ {l : List Char}, ¬ sep ∈ l →
    splitChar sep l = [l]
  | [], _ => rfl
  | c :: cs, h => by
    have hc : ¬ c = sep := fun e => h (by rw [← e]; exact List.mem_cons_self c cs)
    have hcs : ¬ sep ∈ cs := fun m => h (List.mem_cons_of_mem c m)
    unfold splitChar
    rw [if_neg hc, splitChar_eq_single hcs]

theorem splitChar_append_sep {sep : Char} {b : List Char} :
    ∀ {a : List Char}, ¬ sep ∈ a →
      splitChar sep (a ++ sep :: b) = a :: splitChar sep b
  | [], _ => by
    show splitChar sep (sep :: b) = [] :: splitChar sep b
    conv_lhs => rw [splitChar]
    rw [if_pos rfl]
  | c :: a, h => by
    have hc : ¬ c = sep := fun e => h (by rw [← e]; exact List.mem_cons_self c a)
    have ha : ¬ sep ∈ a := fun m => h (List.mem_cons_of_mem c m)
    show splitChar sep (c :: (a ++ sep :: b)) = (c :: a) :: splitChar sep b
    conv_lhs => rw [splitChar]
    rw [if_neg hc, splitChar_append_sep ha]

theorem splitChar_two {sep : Char} {a b : List Char} (ha : ¬ sep ∈ a)
    (hb : ¬ sep ∈ b) : splitChar sep (a ++ sep :: b) = [a, b] := by
  rw [splitChar_append_sep ha, splitChar_eq_single hb]

/-- No piece produced by `splitChar` contains the separator (Go
`strings.Split` removes every separator occurrence). -/
theorem splitChar_pieces {sep : Char} : ∀ {l piece : List Char},
    piece ∈ splitChar sep l → ¬ sep ∈ piece
  | [], piece, hm => by
    simp only [splitChar, List.mem_singleton] at hm
    subst hm
    simp
  | c :: cs, piece, hm => by
    by_cases hc : c = sep
    · unfold splitChar at hm
      rw [if_pos hc] at hm
      rcases List.mem_cons.mp hm with h | h
      · subst h; simp
      · exact splitChar_pieces h
    · unfold splitChar at hm
      rw [if_neg hc] at hm
      rcases hsp : splitChar sep cs with _ | ⟨h0, t0⟩ <;> rw [hsp] at hm
      · rcases List.mem_cons.mp hm with h | h
        · subst h
          intro hmem
          rcases List.mem_singleton.mp hmem with rfl
          exact hc rfl
        · cases h
      · rcases List.mem_cons.mp hm with h | h
        · subst h
          intro hmem
          rcases List.mem_cons.mp hmem with h2 | h2
          · exact hc h2.symm
          · exact splitChar_pieces (hsp ▸ List.mem_cons_self h0 t0) h2
        · exact splitChar_pieces (hsp ▸ List.mem_cons_of_mem h0 h)

theorem goAtoi_digits : ∀ {l : List Char}, l ≠ [] → l.all isGoDigit = true →
    ((digitsVal l : Int) ≤ int64Max) →
    goAtoi (String.mk l) = some ((digitsVal l : Int))
  | [], hne, _, _ => absurd rfl hne
  | c :: rest, _, hdig, hbound => by
    have hc : isGoDigit c = true := by
      rw [List.all_cons, Bool.and_eq_true] at hdig
      exact hdig.1
    have hcm : ¬ c = '-' := isGoDigit_ne_hyphen hc
    have hcp : ¬ c = '+' := isGoDigit_ne_plus hc
    have h0 : (0 : Int) ≤ (digitsVal (c :: rest) : Int) := Int.natCast_nonneg _
    have hmin : int64Min ≤ (digitsVal (c :: rest) : Int) :=
      le_trans (by decide) h0
    unfold goAtoi
    simp [decide_eq_false hcm, decide_eq_false hcp, hdig, hmin, hbound]

theorem goAtoi_nonneg {s : String} (hm : ¬ '-' ∈ s.data) {v : Int}
    (h : goAtoi s = some v) : 0 ≤ v := by
  unfold goAtoi at h
  rcases hd : s.data with _ | ⟨c, rest⟩ <;> rw [hd] at h
  · cases h
  · have hcm : ¬ c = '-' := by
      intro e; apply hm; rw [hd, e]; exact List.mem_cons_self _ _
    simp only [decide_eq_false hcm, Bool.false_or, Bool.false_eq_true, if_false] at h
    have key : ∀ digits : List Char,
        (if digits.isEmpty = true then none
         else if digits.all isGoDigit = true then
           if (decide (int64Min ≤ (digitsVal digits : Int)) &&
               decide ((digitsVal digits : Int) ≤ int64Max)) = true then
             some ((digitsVal digits : Int))
           else none
         else none) = some v → 0 ≤ v := by
      intro digits hdig
      by_cases h1 : digits.isEmpty = true
      · rw [if_pos h1] at hdig; exact Option.noConfusion hdig
      · rw [if_neg h1] at hdig
        by_cases h2 : digits.all isGoDigit = true
        · rw [if_pos h2] at hdig
          by_cases h3 : (decide (int64Min ≤ (digitsVal digits : Int)) &&
              decide ((digitsVal digits : Int) ≤ int64Max)) = true
          · rw [if_pos h3] at hdig
            injection hdig with h4
            rw [← h4]
            exact Int.natCast_nonneg _
          · rw [if_neg h3] at hdig; exact Option.noConfusion hdig
        · rw [if_neg h2] at hdig; exact Option.noConfusion hdig
    by_cases hp : c = '+'
    · simp only [decide_eq_true hp, Bool.true_eq_false, if_true] at h
      exact key rest h
    · simp only [decide_eq_false hp, Bool.false_eq_true, if_false] at h
      exact key (c :: rest) h

theorem rangeList_nonneg {a b x : Int} (ha : 0 ≤ a) (hx : x ∈ rangeList a b) :
    0 ≤ x := by
  unfold rangeList at hx
  split at hx
  · cases hx
  · obtain ⟨i, _, rfl⟩ := List.mem_map.mp hx
    omega

theorem data_mk (l : List Char) : (String.mk l).data = l := rfl

theorem contains_eq_false {l : List Char} {c : Char} (h : ¬ c ∈ l) :
    l.contains c = false := by
  cases hc : l.contains c
  · rfl
  · exact absurd (List.elem_iff.mp hc) h

theorem contains_eq_true {l : List Char} {c : Char} (h : c ∈ l) :
    l.contains c = true :=
  List.elem_eq_true_of_mem h

/-- `parseToken` with its `let` binding expanded, for rewriting. -/
theorem parseToken_eq (rtok : String) :
    parseToken rtok =
      (if (goTrimSpace rtok).data.contains '-' = true then
        match splitChar '-' (goTrimSpace rtok).data with
        | [p0, p1] =>
          match goAtoi (String.mk p0) with
          | none => .error (.invalidStartPort (String.mk p0))
          | some startPort =>
            match goAtoi (String.mk p1) with
            | none => .error (.invalidEndPort (String.mk p1))
            | some endPort =>
              if startPort > endPort then
                .error (.invalidRangeOrder startPort endPort)
              else .ok (rangeList startPort endPort)
        | _ => .error (.invalidRangeFormat (goTrimSpace rtok))
      else
        match goAtoi (goTrimSpace rtok) with
        | none => .error (.invalidPort (goTrimSpace rtok))
        | some port => .ok [port]) := rfl

theorem isDigitsTok_parts {t : List Char} (h : isDigitsTok t = true) :
    t ≠ [] ∧ t.all isGoDigit = true := by
  rw [isDigitsTok, Bool.and_eq_true, Bool.not_eq_true'] at h
  refine ⟨fun e => ?_, h.2⟩
  rw [e] at h
  exact absurd h.1 (by decide)

theorem isDigitsTok_no_hyphen {t : List Char} (h : isDigitsTok t = true) :
    ¬ '-' ∈ t := by
  intro hm
  have hall := (isDigitsTok_parts h).2
  rw [List.all_eq_true] at hall
  exact absurd (hall '-' hm) (by decide)

theorem isDigitsTok_no_space {t : List Char} (h : isDigitsTok t = true) :
    ∀ c ∈ t, goIsSpace c = false := by
  intro c hc
  have hall := (isDigitsTok_parts h).2
  rw [List.all_eq_true] at hall
  exact goIsSpace_digit (hall c hc)

/-- On a syntactically valid token, `parseToken` succeeds with exactly
the token's expansion. -/
theorem parseToken_valid {t : List Char} (h : ValidTok t) :
    parseToken (String.mk t) = .ok (expandTok t) := by
  rcases h with ⟨hd, hb⟩ | ⟨a, b, rfl, hda, hdb, hle, hbB⟩
  · have hnoh : ¬ '-' ∈ t := isDigitsTok_no_hyphen hd
    have htrim : goTrimSpace (String.mk t) = String.mk t :=
      goTrimSpace_eq_self (isDigitsTok_no_space hd)
    have hcf : t.contains '-' = false := contains_eq_false hnoh
    rw [parseToken_eq, htrim, data_mk, hcf]
    simp only [Bool.false_eq_true, if_false]
    rw [goAtoi_digits (isDigitsTok_parts hd).1 (isDigitsTok_parts hd).2 hb]
    rw [expandTok, hcf]
    simp
  · have hnoa : ¬ '-' ∈ a := isDigitsTok_no_hyphen hda
    have hnob : ¬ '-' ∈ b := isDigitsTok_no_hyphen hdb
    have hnos : ∀ c ∈ a ++ '-' :: b, goIsSpace c = false := by
      intro c hc
      rcases List.mem_append.mp hc with hc | hc
      · exact isDigitsTok_no_space hda c hc
      · rcases List.mem_cons.mp hc with rfl | hc
        · decide
        · exact isDigitsTok_no_space hdb c hc
    have htrim : goTrimSpace (String.mk (a ++ '-' :: b)) = String.mk (a ++ '-' :: b) :=
      goTrimSpace_eq_self hnos
    have hct : (a ++ '-' :: b).contains '-' = true :=
      contains_eq_true (List.mem_append_right a (List.mem_cons_self _ _))
    have hsplit : splitChar '-' (a ++ '-' :: b) = [a, b] := splitChar_two hnoa hnob
    rw [parseToken_eq, htrim, data_mk, hct]
    simp only [if_true]
    rw [hsplit]
    dsimp only
    rw [goAtoi_digits (isDigitsTok_parts hda).1 (isDigitsTok_parts hda).2
      (le_trans hle hbB)]
    dsimp only
    rw [goAtoi_digits (isDigitsTok_parts hdb).1 (isDigitsTok_parts hdb).2 hbB]
    dsimp only
    rw [if_neg (not_lt.mpr hle)]
    rw [expandTok, hct]
    simp only [if_true]
    rw [hsplit]

/-- On a list of valid tokens, the token loop succeeds with the
concatenation of the expansions, in token order. -/
theorem parseTokens_valid : ∀ {ts : List (List Char)}, (∀ t ∈ ts, ValidTok t) →
    parseTokens ts = .ok ((ts.map expandTok).flatten)
  | [], _ => rfl
  | t :: ts, h => by
    unfold parseTokens
    rw [parseToken_valid (h t (List.mem_cons_self t ts)),
      parseTokens_valid (fun u hu => h u (List.mem_cons_of_mem t hu))]
    rfl

/-- C7: for every port specification all of whose comma-separated
tokens are valid singletons or inclusive ranges, resolution succeeds
and the resolved PortList is exactly the concatenation, in token order,
of each token's expansion (its single value, or every integer of its
range inclusive); in particular `"22,80,100-200"` resolves to
`[22, 80] ++ [100..200]` of length 103. -/
theorem C7_valid_spec_resolution :
    (∀ s : String, s ≠ "" → (∀ t ∈ splitChar ',' s.data, ValidTok t) →
      parsePortRange s = .ok (((splitChar ',' s.data).map expandTok).flatten)) ∧
    parsePortRange "22,80,100-200" = .ok ([22, 80] ++ rangeList 100 200) ∧
    ([22, 80] ++ rangeList 100 200).length = 103 := by
  refine ⟨?_, by decide, by decide⟩
  intro s hne hval
  unfold parsePortRange
  rw [if_neg hne]
  exact parseTokens_valid hval

/-- Witness for C7 at the spec string of the claim. -/
theorem C7_valid_spec_resolution_witness :
    parsePortRange "22,80,100-200" =
      .ok (((splitChar ',' ("22,80,100-200" : String).data).map expandTok).flatten) := by
  refine C7_valid_spec_resolution.1 "22,80,100-200" (by decide) ?_
  intro t ht
  have hs : splitChar ',' ("22,80,100-200" : String).data =
      [['2', '2'], ['8', '0'], ['1', '0', '0', '-', '2', '0', '0']] := rfl
  rw [hs] at ht
  simp only [List.mem_cons, List.not_mem_nil, or_false] at ht
  rcases ht with rfl | rfl | rfl
  · exact Or.inl ⟨by decide, by decide⟩
  · exact Or.inl ⟨by decide, by decide⟩
  · exact Or.inr ⟨['1', '0', '0'], ['2', '0', '0'], rfl, by decide, by decide,
      by decide, by decide⟩

theorem parseTokens_error_iff : ∀ {ts : List (List Char)},
    (∃ e, parseTokens ts = .error e) ↔
      ∃ t ∈ ts, ∃ e, parseToken (String.mk t) = .error e
  | [] => by
    constructor
    · rintro ⟨e, he⟩
      exact Except.noConfusion he
    · rintro ⟨t, ht, _⟩
      exact absurd ht (List.not_mem_nil t)
  | t :: ts => by
    unfold parseTokens
    rcases h1 : parseToken (String.mk t) with e | xs
    · constructor
      · intro _
        exact ⟨t, List.mem_cons_self t ts, e, h1⟩
      · intro _
        exact ⟨e, rfl⟩
    · rcases h2 : parseTokens ts with e | ys
      · constructor
        · intro _
          obtain ⟨u, hu, e2, he2⟩ := parseTokens_error_iff.mp ⟨e, h2⟩
          exact ⟨u, List.mem_cons_of_mem t hu, e2, he2⟩
        · intro _
          exact ⟨e, rfl⟩
      · constructor
        · rintro ⟨e, he⟩
          exact Except.noConfusion he
        · rintro ⟨u, hu, e2, he2⟩
          rcases List.mem_cons.mp hu with rfl | hu
          · rw [h1] at he2
            exact Except.noConfusion he2
          · obtain ⟨e3, he3⟩ := parseTokens_error_iff.mpr ⟨u, hu, e2, he2⟩
            rw [h2] at he3
            exact Except.noConfusion he3

/-- C8: resolution of a token fails with `InvalidRangeFormat` exactly
when the (trimmed) token contains a hyphen but does not split into
exactly two parts; with an `InvalidPortNumber` error (`invalidPort`,
`invalidStartPort`, `invalidEndPort`, each carrying the offending
token or endpoint) exactly when a hyphen-free token, or the first, or
the second endpoint of a two-part range token is not a valid integer
(checked in that order); and with `InvalidRangeOrder` exactly when both
endpoints parse but start exceeds end.  The six cases below are
mutually exclusive and exhaustive, so each failure happens exactly
under its stated condition; at spec level, resolution fails exactly
when some comma-separated token fails (with the first failing token's
error), and then no PortList is produced. -/
theorem C8_resolution_errors :
    (∀ rtok : String,
      ((goTrimSpace rtok).data.contains '-' = false ∧
        goAtoi (goTrimSpace rtok) = none ∧
        parseToken rtok = .error (.invalidPort (goTrimSpace rtok))) ∨
      ((goTrimSpace rtok).data.contains '-' = false ∧
        ∃ v, goAtoi (goTrimSpace rtok) = some v ∧ parseToken rtok = .ok [v]) ∨
      ((goTrimSpace rtok).data.contains '-' = true ∧
        (splitChar '-' (goTrimSpace rtok).data).length ≠ 2 ∧
        parseToken rtok = .error (.invalidRangeFormat (goTrimSpace rtok))) ∨
      ((goTrimSpace rtok).data.contains '-' = true ∧
        ∃ p0 p1, splitChar '-' (goTrimSpace rtok).data = [p0, p1] ∧
          goAtoi (String.mk p0) = none ∧
          parseToken rtok = .error (.invalidStartPort (String.mk p0))) ∨
      ((goTrimSpace rtok).data.contains '-' = true ∧
        ∃ p0 p1 a, splitChar '-' (goTrimSpace rtok).data = [p0, p1] ∧
          goAtoi (String.mk p0) = some a ∧ goAtoi (String.mk p1) = none ∧
          parseToken rtok = .error (.invalidEndPort (String.mk p1))) ∨
      ((goTrimSpace rtok).data.contains '-' = true ∧
        ∃ p0 p1 a b, splitChar '-' (goTrimSpace rtok).data = [p0, p1] ∧
          goAtoi (String.mk p0) = some a ∧ goAtoi (String.mk p1) = some b ∧
          ((b < a ∧ parseToken rtok = .error (.invalidRangeOrder a b)) ∨
           (a ≤ b ∧ parseToken rtok = .ok (rangeList a b))))) ∧
    (∀ s : String, (∃ e, parsePortRange s = .error e) ↔
      (s ≠ "" ∧ ∃ t ∈ splitChar ',' s.data,
        ∃ e, parseToken (String.mk t) = .error e)) := by
  constructor
  · intro rtok
    by_cases hc : (goTrimSpace rtok).data.contains '-' = true
    · rcases hs : splitChar '-' (goTrimSpace rtok).data with _ | ⟨p0, _ | ⟨p1, _ | ⟨p2, rest3⟩⟩⟩
      · refine Or.inr (Or.inr (Or.inl ⟨hc, by decide, ?_⟩))
        rw [parseToken_eq, hc]
        simp only [if_true]
        rw [hs]
      · refine Or.inr (Or.inr (Or.inl ⟨hc, by simp, ?_⟩))
        rw [parseToken_eq, hc]
        simp only [if_true]
        rw [hs]
      · rcases ha0 : goAtoi (String.mk p0) with _ | a
        · refine Or.inr (Or.inr (Or.inr (Or.inl ⟨hc, p0, p1, rfl, ha0, ?_⟩)))
          rw [parseToken_eq, hc]
          simp only [if_true]
          rw [hs]
          dsimp only
          rw [ha0]
        · rcases ha1 : goAtoi (String.mk p1) with _ | b
          · refine Or.inr (Or.inr (Or.inr (Or.inr (Or.inl
              ⟨hc, p0, p1, a, rfl, ha0, ha1, ?_⟩))))
            rw [parseToken_eq, hc]
            simp only [if_true]
            rw [hs]
            dsimp only
            rw [ha0]
            dsimp only
            rw [ha1]
          · by_cases hab : a > b
            · refine Or.inr (Or.inr (Or.inr (Or.inr (Or.inr
                ⟨hc, p0, p1, a, b, rfl, ha0, ha1, Or.inl ⟨hab, ?_⟩⟩))))
              rw [parseToken_eq, hc]
              simp only [if_true]
              rw [hs]
              dsimp only
              rw [ha0]
              dsimp only
              rw [ha1]
              dsimp only
              rw [if_pos hab]
            · refine Or.inr (Or.inr (Or.inr (Or.inr (Or.inr
                ⟨hc, p0, p1, a, b, rfl, ha0, ha1, Or.inr ⟨not_lt.mp hab, ?_⟩⟩))))
              rw [parseToken_eq, hc]
              simp only [if_true]
              rw [hs]
              dsimp only
              rw [ha0]
              dsimp only
              rw [ha1]
              dsimp only
              rw [if_neg hab]
      · exact Or.inr (Or.inr (Or.inl ⟨hc, by simp, by
          rw [parseToken_eq, hc]
          simp only [if_true]
          rw [hs]⟩))
    · have hcf : (goTrimSpace rtok).data.contains '-' = false :=
        Bool.not_eq_true _ ▸ eq_false_of_ne_true hc
      rcases ha : goAtoi (goTrimSpace rtok) with _ | v
      · refine Or.inl ⟨hcf, rfl, ?_⟩
        rw [parseToken_eq, hcf]
        simp only [Bool.false_eq_true, if_false]
        rw [ha]
      · refine Or.inr (Or.inl ⟨hcf, v, rfl, ?_⟩)
        rw [parseToken_eq, hcf]
        simp only [Bool.false_eq_true, if_false]
        rw [ha]
  · intro s
    by_cases hse : s = ""
    · subst hse
      constructor
      · rintro ⟨e, he⟩
        rw [parsePortRange] at he
        exact Except.noConfusion (if_pos rfl ▸ he)
      · rintro ⟨h, _⟩
        exact absurd rfl h
    · unfold parsePortRange
      rw [if_neg hse]
      constructor
      · intro h
        exact ⟨hse, parseTokens_error_iff.mp h⟩
      · intro h
        exact parseTokens_error_iff.mpr h.2

theorem parseToken_nonneg {rtok : String} {xs : List Int}
    (h : parseToken rtok = .ok xs) : ∀ x ∈ xs, 0 ≤ x := by
  rw [parseToken_eq] at h
  by_cases hc : (goTrimSpace rtok).data.contains '-' = true
  · rw [if_pos hc] at h
    rcases hs : splitChar '-' (goTrimSpace rtok).data with _ | ⟨p0, _ | ⟨p1, _ | ⟨p2, rest3⟩⟩⟩ <;>
        (try rw [hs] at h) <;> (try dsimp only at h)
    · exact Except.noConfusion h
    · exact Except.noConfusion h
    · rcases ha0 : goAtoi (String.mk p0) with _ | a <;> rw [ha0] at h <;>
          (try dsimp only at h)
      · exact Except.noConfusion h
      · rcases ha1 : goAtoi (String.mk p1) with _ | b <;> rw [ha1] at h <;>
            (try dsimp only at h)
        · exact Except.noConfusion h
        · by_cases hab : a > b
          · rw [if_pos hab] at h
            exact Except.noConfusion h
          · rw [if_neg hab] at h
            injection h with h2
            subst h2
            intro x hx
            have hp0mem : p0 ∈ splitChar '-' (goTrimSpace rtok).data := by
              rw [hs]
              exact List.mem_cons_self _ _
            have hp0nn : 0 ≤ a :=
              goAtoi_nonneg (by rw [data_mk]; exact splitChar_pieces hp0mem) ha0
            exact rangeList_nonneg hp0nn hx
    · exact Except.noConfusion h
  · rw [if_neg hc] at h
    rcases ha : goAtoi (goTrimSpace rtok) with _ | v <;> rw [ha] at h <;>
        (try dsimp only at h)
    · exact Except.noConfusion h
    · injection h with h2
      subst h2
      intro x hx
      rcases List.mem_singleton.mp hx with rfl
      have hnm : ¬ '-' ∈ (goTrimSpace rtok).data := by
        intro hm
        rw [contains_eq_true hm] at hc
        exact hc rfl
      exact goAtoi_nonneg hnm ha

theorem parseTokens_nonneg : ∀ {ts : List (List Char)} {xs : List Int},
    parseTokens ts = .ok xs → ∀ x ∈ xs, 0 ≤ x
  | [], xs, h => by
    unfold parseTokens at h
    injection h with h2
    subst h2
    intro x hx
    exact absurd hx (List.not_mem_nil x)
  | t :: ts, xs, h => by
    unfold parseTokens at h
    rcases h1 : parseToken (String.mk t) with e | ys <;> rw [h1] at h
    · exact Except.noConfusion h
    · rcases h2 : parseTokens ts with e | zs <;> rw [h2] at h
      · exact Except.noConfusion h
      · injection h with h3
        subst h3
        intro x hx
        rcases List.mem_append.mp hx with hx | hx
        · exact parseToken_nonneg h1 x hx
        · exact parseTokens_nonneg h2 x hx

/-- C9 counterexample: the token `"-5"` denotes the negative integer
−5, which is out of the valid TCP port range, yet it is not passed
through: because it contains a hyphen it is parsed as a range whose
first endpoint is the empty string, and resolution fails with the
`InvalidPortNumber`-class error `invalidStartPort ""` instead of
producing `[-5]`. -/
theorem C9_counterexample :
    parsePortRange "-5" = .error (.invalidStartPort "") ∧
    parsePortRange "-5" ≠ .ok [(-5 : Int)] :=
  ⟨by decide, by decide⟩

/-- C9 (amended): the resolver performs no upper or lower bound check
on port magnitude for the integers it can parse — nonnegative
out-of-range values such as 0 and 70000 pass through into the
PortList, alone or as range endpoints — but a token denoting a
negative integer is never passed through (a leading hyphen makes the
token parse as a malformed range, so `"-5"` fails with
`invalidStartPort ""`), a token beyond the 64-bit integer limit is
rejected by `strconv.Atoi`, and consequently every integer of every
resolved PortList is nonnegative. -/
theorem C9_no_magnitude_validation :
    parsePortRange "0" = .ok [0] ∧
    parsePortRange "70000" = .ok [70000] ∧
    parsePortRange "0-2" = .ok [0, 1, 2] ∧
    parsePortRange "65536-65537" = .ok [65536, 65537] ∧
    parsePortRange "-5" = .error (.invalidStartPort "") ∧
    parsePortRange "9223372036854775808" =
      .error (.invalidPort "9223372036854775808") ∧
    (∀ s xs, parsePortRange s = .ok xs → ∀ x ∈ xs, 0 ≤ x) := by
  refine ⟨by decide, by decide, by decide, by decide, by decide, by decide, ?_⟩
  intro s xs h
  rw [parsePortRange] at h
  by_cases hse : s = ""
  · rw [if_pos hse] at h
    injection h with h2
    subst h2
    intro x hx
    exact absurd hx (List.not_mem_nil x)
  · rw [if_neg hse] at h
    exact parseTokens_nonneg h

/-- Witness for C9 (amended): 70000 passes through and is nonnegative. -/
theorem C9_no_magnitude_validation_witness :
    parsePortRange "70000" = .ok [70000] ∧ (0 : Int) ≤ 70000 := by
  obtain ⟨h0, h70, h02, h655, hneg, hbig, hall⟩ := C9_no_magnitude_validation
  exact ⟨h70, hall "70000" [70000] h70 70000 (List.mem_singleton.mpr rfl)⟩

/-- C10: every comma-separated token is stripped of leading and
trailing whitespace (`strings.TrimSpace`, argos.go line 93) before
interpretation, so a token padded with spaces parses exactly like the
bare token, and `"22, 80"` resolves to the same PortList as
`"22,80"`. -/
theorem C10_token_trimming :
    (∀ t : String,
      parseToken (String.mk (' ' :: (t.data ++ [' ']))) = parseToken t) ∧
    parsePortRange "22, 80" = parsePortRange "22,80" ∧
    parsePortRange "22, 80" = .ok [22, 80] := by
  refine ⟨?_, by decide, by decide⟩
  intro t
  have hsp : goIsSpace ' ' = true := by decide
  have htrim : goTrimSpace (String.mk (' ' :: (t.data ++ [' ']))) =
      goTrimSpace t := by
    unfold goTrimSpace
    rw [data_mk, List.dropWhile_cons, hsp]
    simp only [if_true]
    rw [List.dropWhile_append]
    by_cases he : (t.data.dropWhile goIsSpace).isEmpty = true
    · rw [if_pos he, List.isEmpty_iff.mp he]
      have h1 : List.dropWhile goIsSpace [' '] = [] := by decide
      rw [h1]
    · rw [if_neg he]
      have h2 : (t.data.dropWhile goIsSpace ++ [' ']).reverse =
          ' ' :: (t.data.dropWhile goIsSpace).reverse := by
        simp
      rw [h2, List.dropWhile_cons, hsp]
      simp only [if_true]
  rw [parseToken_eq, parseToken_eq, htrim]

/-- Witness for C10: `" 80 "` (as character data) parses like `"80"`. -/
theorem C10_token_trimming_witness :
    parseToken (String.mk (' ' :: (("80" : String).data ++ [' ']))) =
      parseToken "80" :=
  C10_token_trimming.1 "80"

/-- Witness for C4: the three classifications at host `"h"`, port 80,
timeout 500 ms. -/
theorem C4_probe_classification_witness :
    (scanPort "h" 80 500 .failedTimeout).State = "filtered" ∧
    (scanPort "h" 80 500 .failedOther).State = "closed" ∧
    (∀ sd rd, (scanPort "h" 80 500 (.connected sd rd)).State = "open") ∧
    (∀ net, (scanPort "h" 80 500 net).Port = 80 ∧
      ((scanPort "h" 80 500 net).State = "open" ∨
       (scanPort "h" 80 500 net).State = "closed" ∨
       (scanPort "h" 80 500 net).State = "filtered")) :=
  C4_probe_classification "h" 80 500

/-- Witness for C8 at the spec `"200-100"`, whose only token fails. -/
theorem C8_resolution_errors_witness :
    (∃ e, parsePortRange "200-100" = .error e) ↔
      (("200-100" : String) ≠ "" ∧
        ∃ t ∈ splitChar ',' ("200-100" : String).data,
          ∃ e, parseToken (String.mk t) = .error e) :=
  C8_resolution_errors.2 "200-100"

end Argos
